import Mathlib

/-!
Verification of the CoAP message codec of go-coap (src/message.go).

The embedding models Go machine integers as `Nat` with explicit `% 256`,
`% 65536`, `% 4294967296` at the points where the source converts or
overflows; `[]byte` and `string` become `List Nat` of byte values; the
`(value, error)` return pairs become explicit result inductives.  A Go
runtime panic (unchecked index / slice) is modelled as a distinguished
`panics` outcome of the parser.
-/

namespace GoCoap

/-- From src/message.go `encodeInt`: minimal big-endian encoding of a
`uint32`.  The source writes via `binary.BigEndian.PutUint16/PutUint32`
and drops the leading byte in the 3-byte case (`rv[1:]`); each emitted
byte is the corresponding big-endian byte of the value. -/
def encodeInt (v : Nat) : List Nat :=
  if v = 0 then []
  else if v < 256 then [v % 256]
  else if v < 65536 then [(v % 65536) / 256, v % 256]
  else if v < 16777216 then [(v / 65536) % 256, (v / 256) % 256, v % 256]
  else [(v / 16777216) % 256, (v / 65536) % 256, (v / 256) % 256, v % 256]

/-- From src/message.go `decodeInt`: left-pad the input to 4 bytes with
zeros and read it back big-endian (`binary.BigEndian.Uint32`).  For
inputs of at most 4 byte values this equals the big-endian fold below;
the Go source panics when `len(b) > 4` (it slices `tmp[4-len(b):]` with
a negative index) — that panic is modelled at the call site inside
`parseOpts`, which is the only caller with unbounded lengths. -/
def decodeInt (b : List Nat) : Nat :=
  b.foldl (fun acc x => acc * 256 + x) 0

/-- The dynamic `interface{}` value stored in an option, restricted to
the kinds the source actually stores and produces: Go `string`
(`vstr`, as its bytes), Go `[]byte` (`vbytes`), and the numeric kinds
(`int`, `int32`, `uint`, `uint32`, `MediaType`) collapsed into `vnat`
carrying the numeric value (the source converts every numeric kind to
`uint32` before encoding).  The `default: panic` branch of `toBytes`
is unrepresentable in this closed type. -/
inductive GoVal where
  | vstr   (s : List Nat) : GoVal
  | vbytes (b : List Nat) : GoVal
  | vnat   (n : Nat) : GoVal
deriving DecidableEq

/-- From src/message.go `type option struct`: identifier (`OptionID`,
a `uint8`, modelled as a `Nat` kept below 256 by the operations) plus
dynamic value. -/
structure option where
  ID : Nat
  Value : GoVal
deriving DecidableEq

/-- From src/message.go `(o option) toBytes()`: strings and byte
slices pass through; numeric values go through `uint32` conversion and
`encodeInt`. -/
def toBytes (o : option) : List Nat :=
  match o.Value with
  | .vstr s => s
  | .vbytes b => b
  | .vnat n => encodeInt (n % 4294967296)

/-- From src/message.go `type Message struct`.  `Type'` models the
`Type COAPType` field (a `uint8`; the name `Type` is reserved in
Lean), `Code` is `uint8`, `MessageID` is `uint16`. -/
structure Message where
  Type' : Nat
  Code : Nat
  MessageID : Nat
  Payload : List Nat
  opts : List option
deriving DecidableEq

/-- Insertion step of the sort model: place `o` after every element
whose identifier is ≤ `o.ID`, i.e. before the first strictly greater
one. -/
def insertOpt (o : option) : List option → List option
  | [] => [o]
  | p :: rest => if p.ID ≤ o.ID then p :: insertOpt o rest else o :: p :: rest

/-- Models `sort.Sort(&m.opts)` with the `options.Less` order of
src/message.go (ascending `ID`; `Less` tie-breaks equal identifiers on
current index, so the sorted postcondition is exactly nondecreasing
`ID`).  Realized as insertion sort, which produces one conforming
permutation; `sort.Sort` itself fixes no particular permutation among
options of equal identifier. -/
def sortOptions : List option → List option
  | [] => []
  | o :: rest => insertOpt o (sortOptions rest)

/-- The encode-side error values of src/message.go (`TooManyoptions`,
`OptionGapTooLarge`; `OptionTooLong` is declared in the source but
never returned). -/
inductive EncErr where
  | tooManyoptions
  | optionGapTooLarge
deriving DecidableEq

/-- Result of `encodeMessage` — the Go pair `([]byte, error)`. -/
inductive EncResult where
  | ok (bytes : List Nat)
  | error (e : EncErr)
deriving DecidableEq

/-- The option loop of src/message.go `encodeMessage` (lines 298-315),
running over the sorted option list with running previous identifier
`prev`.  Per option: header byte(s) `byte(int(o.ID)-prev)<<4 | …`
(single byte carrying the length when `len(b) <= 15`, else the length
nibble 15 followed by `byte(len(b)-15)`), then the gap check
`int(o.ID)-prev > 15` (the source performs the check after writing the
header to the buffer, but the buffer is discarded on error, so
emission order is unobservable), then the value bytes.  The function
is only invoked on the sorted list, where identifiers are
nondecreasing, so the `int` subtraction of the source agrees with
truncated `Nat` subtraction. -/
def encodeOpts : Nat → List option → EncResult
  | _, [] => .ok []
  | prev, o :: rest =>
    let b := toBytes o
    let hdr : List Nat :=
      if 15 < b.length then
        [((((o.ID - prev) % 256) <<< 4) % 256) ||| 15, (b.length - 15) % 256]
      else
        [((((o.ID - prev) % 256) <<< 4) % 256) ||| (b.length % 256)]
    if 15 < o.ID - prev then .error .optionGapTooLarge
    else
      match encodeOpts o.ID rest with
      | .ok tail => .ok (hdr ++ b ++ tail)
      | .error e => .error e

/-- From src/message.go `encodeMessage`: reject more than 14 options,
emit the 4-byte header
`(1<<6) | (uint8(m.Type)<<4) | uint8(0xf&len(m.opts))`, `byte(m.Code)`,
big-endian `m.MessageID`, then the sorted encoded options, then the
payload verbatim. -/
def encodeMessage (m : Message) : EncResult :=
  if 14 < m.opts.length then .error .tooManyoptions
  else
    match encodeOpts 0 (sortOptions m.opts) with
    | .ok ob =>
      .ok ([(64 ||| (((m.Type' % 256) <<< 4) % 256)) ||| (15 &&& m.opts.length),
            m.Code % 256,
            (m.MessageID % 65536) / 256,
            m.MessageID % 256] ++ ob ++ m.Payload)
    | .error e => .error e

/-- The decode-side error values of src/message.go `parseMessage`
(`errors.New` strings plus the shared `TooManyoptions` value). -/
inductive ParseErr where
  | shortPacket
  | invalidVersion
  | tooManyoptions
  | truncated
deriving DecidableEq

/-- Identifiers decoded as unsigned integers in the `parseMessage`
switch: ContentType(1), MaxAge(2), URIPort(7), Accept(12). -/
def isIntOption (oid : Nat) : Bool :=
  oid == 1 || oid == 2 || oid == 7 || oid == 12

/-- Identifiers decoded as strings in the `parseMessage` switch:
ProxyURI(3), URIHost(5), LocationPath(6), LocationQuery(8),
URIPath(9), UriQuery(15). -/
def isStrOption (oid : Nat) : Bool :=
  oid == 3 || oid == 5 || oid == 6 || oid == 8 || oid == 9 || oid == 15

/-- Outcome of the option-parsing loop: a Go runtime panic, the
`Truncated` error, or the parsed options plus the remaining bytes
(which become the payload). -/
inductive OptsResult where
  | panics
  | truncated
  | done (opts : List option) (payload : List Nat)
deriving DecidableEq

/-- The length-extension read of src/message.go lines 346-349: when
the length nibble exceeds 14, the source reads `b[0]` and advances —
WITHOUT checking that any byte remains, so an empty remainder is a Go
runtime panic (index out of range), modelled as `none`. -/
def readOptLen (l0 : Nat) (b : List Nat) : Option (Nat × List Nat) :=
  if 14 < l0 then
    match b with
    | [] => none
    | e :: rest => some (l0 + e, rest)
  else some (l0, b)

/-- The option loop of src/message.go `parseMessage` (lines 341-372):
`for i := 0; i < opCount && len(b) > 0; i++`, reading per iteration
one delta/length byte, the optional extension byte (`readOptLen`),
checking `len(b) < l` (`Truncated`), then building the typed value.
`OptionID(prev + int(b[0]>>4))` truncates to `uint8`, hence the
`% 256`.  For integer-typed identifiers the source calls
`decodeInt(b[:l])`, which panics when `l > 4` (it slices
`tmp[4-len(b):]` with a negative index) — modelled by the `panics`
branch guarded by `4 < l`. -/
def parseOpts : Nat → Nat → List Nat → OptsResult
  | 0, _, b => .done [] b
  | _ + 1, _, [] => .done [] []
  | n + 1, prev, b0 :: brest =>
    let oid := (prev + (b0 >>> 4)) % 256
    match readOptLen (b0 &&& 15) brest with
    | none => .panics
    | some (l, b) =>
      if b.length < l then .truncated
      else if isIntOption oid ∧ 4 < l then .panics
      else
        let opval : GoVal :=
          if isIntOption oid then .vnat (decodeInt (b.take l))
          else if isStrOption oid then .vstr (b.take l)
          else .vbytes (b.take l)
        match parseOpts n oid (b.drop l) with
        | .done opts payload => .done ({ ID := oid, Value := opval } :: opts) payload
        | r => r

/-- Result of `parseMessage` — the Go pair `(Message, error)`, plus a
distinguished outcome for a Go runtime panic inside the parse. -/
inductive ParseResult where
  | ok (msg : Message)
  | error (e : ParseErr)
  | panics
deriving DecidableEq

/-- From src/message.go `parseMessage`: inputs shorter than 6 bytes
are `Short packet`; version bits `data[0]>>6` must equal 1; the
option-count nibble `data[0]&0xf` must be at most 14; then type, code
and big-endian message ID come from the header and the option loop
consumes `data[4:]`, the remainder becoming the payload.  The input
list models a Go `[]byte`, so its entries are byte values (< 256);
the final catch-all arm is unreachable for lists of length ≥ 6. -/
def parseMessage (data : List Nat) : ParseResult :=
  if data.length < 6 then .error .shortPacket
  else
    match data with
    | d0 :: d1 :: d2 :: d3 :: rest =>
      if d0 >>> 6 ≠ 1 then .error .invalidVersion
      else if 14 < d0 &&& 15 then .error .tooManyoptions
      else
        match parseOpts (d0 &&& 15) 0 rest with
        | .panics => .panics
        | .truncated => .error .truncated
        | .done opts payload =>
          .ok { Type' := (d0 >>> 4) &&& 3, Code := d1,
                MessageID := d2 * 256 + d3, Payload := payload, opts := opts }
    | _ => .error .shortPacket

/-- Spec-side predicate: the list is in nondecreasing identifier order
starting from `prev` (the shape `sort.Sort` leaves the option list in). -/
def sortedFrom : Nat → List option → Bool
  | _, [] => true
  | prev, o :: rest => decide (prev ≤ o.ID) && sortedFrom o.ID rest

/-- Spec-side predicate: every running identifier delta (from previous
identifier `prev`, initially 0) is at most 15 — the claims' gap
condition on the sorted option list. -/
def gapsOk : Nat → List option → Bool
  | _, [] => true
  | prev, o :: rest => decide (o.ID - prev ≤ 15) && gapsOk o.ID rest

/-- Spec-side predicate: the option's value kind matches what
`parseMessage` reconstructs for its identifier — a numeric value
(below 2^32) for the integer-decoded identifiers, a string for the
string-decoded identifiers, raw bytes for all others. -/
def wellTyped (o : option) : Bool :=
  match o.Value with
  | .vnat n => isIntOption o.ID && decide (n < 4294967296)
  | .vstr _ => isStrOption o.ID
  | .vbytes _ => !(isIntOption o.ID) && !(isStrOption o.ID)

/-- Spec-side predicate: the option's wire-value length is encodable —
not exactly 15 (the boundary the encoder mishandles) and at most 270
(the two-byte length form's maximum). -/
def optLenOk (o : option) : Bool :=
  decide ((toBytes o).length ≠ 15) && decide ((toBytes o).length ≤ 270)

/-- Spec-side measure: the number of wire bytes one option occupies in
the encoded message — its header byte, the extension byte when the
encoder emits one (value length > 15), and the value bytes. -/
def optWireSize (o : option) : Nat :=
  (if 15 < (toBytes o).length then 2 else 1) + (toBytes o).length

/-- Spec-side measure: the number of wire bytes a list of options
occupies in the encoded message, i.e. the byte count following the
4-byte header before the payload. -/
def optsWireSize (l : List option) : Nat :=
  (l.map optWireSize).sum

/-! ### Auxiliary lemmas -/

theorem optsWireSize_cons (o : option) (l : List option) :
    optsWireSize (o :: l) = optWireSize o + optsWireSize l := by
  simp [optsWireSize]

theorem nibble_bits : ∀ d < 16, ∀ n < 16,
    (((d <<< 4) % 256) ||| n) >>> 4 = d ∧ (((d <<< 4) % 256) ||| n) &&& 15 = n := by
  decide

theorem header_bits : ∀ t < 4, ∀ c < 15,
    ((64 ||| ((t <<< 4) % 256)) ||| (15 &&& c)) >>> 6 = 1 ∧
    (((64 ||| ((t <<< 4) % 256)) ||| (15 &&& c)) >>> 4) &&& 3 = t ∧
    ((64 ||| ((t <<< 4) % 256)) ||| (15 &&& c)) &&& 15 = c := by
  decide

theorem encodeInt_length_le (v : Nat) : (encodeInt v).length ≤ 4 := by
  unfold encodeInt
  split_ifs <;> simp

theorem decodeInt_encodeInt (v : Nat) (hv : v < 4294967296) :
    decodeInt (encodeInt v) = v := by
  unfold encodeInt decodeInt
  split_ifs with h1 h2 h3 h4 <;> simp only [List.foldl] <;> omega

theorem insertOpt_perm (o : option) (l : List option) :
    (insertOpt o l).Perm (o :: l) := by
  induction l with
  | nil => exact List.Perm.refl _
  | cons p rest ih =>
    unfold insertOpt
    split_ifs with h
    · exact (ih.cons p).trans (List.Perm.swap o p rest)
    · exact List.Perm.refl _

theorem sortOptions_perm (l : List option) : (sortOptions l).Perm l := by
  induction l with
  | nil => exact List.Perm.refl _
  | cons o rest ih => exact (insertOpt_perm o (sortOptions rest)).trans (ih.cons o)

theorem sortOptions_length (l : List option) :
    (sortOptions l).length = l.length :=
  (sortOptions_perm l).length_eq

theorem sortedFrom_insert (o : option) (l : List option) : ∀ prev : Nat,
    prev ≤ o.ID → sortedFrom prev l = true →
    sortedFrom prev (insertOpt o l) = true := by
  induction l with
  | nil =>
    intro prev ho _
    simp [insertOpt, sortedFrom, ho]
  | cons p rest ih =>
    intro prev ho hs
    simp only [sortedFrom, Bool.and_eq_true, decide_eq_true_eq] at hs
    unfold insertOpt
    split_ifs with h
    · simp only [sortedFrom, Bool.and_eq_true, decide_eq_true_eq]
      exact ⟨hs.1, ih p.ID h hs.2⟩
    · simp only [sortedFrom, Bool.and_eq_true, decide_eq_true_eq]
      exact ⟨ho, by omega, hs.2⟩

theorem sortOptions_sortedFrom (l : List option) :
    sortedFrom 0 (sortOptions l) = true := by
  induction l with
  | nil => rfl
  | cons o rest ih =>
    exact sortedFrom_insert o (sortOptions rest) 0 (Nat.zero_le _) ih

theorem ids_le_of_sorted_gaps (l : List option) : ∀ prev : Nat,
    sortedFrom prev l = true → gapsOk prev l = true →
    ∀ o ∈ l, o.ID ≤ prev + 15 * l.length := by
  induction l with
  | nil => simp
  | cons p rest ih =>
    intro prev hs hg o ho
    simp only [sortedFrom, gapsOk, Bool.and_eq_true, decide_eq_true_eq] at hs hg
    rcases List.mem_cons.mp ho with rfl | hmem
    · have := hs.1
      have := hg.1
      simp only [List.length_cons]
      omega
    · have := ih p.ID hs.2 hg.2 o hmem
      have := hs.1
      have := hg.1
      simp only [List.length_cons]
      omega

theorem str_not_int (x : Nat) (h : isStrOption x = true) : isIntOption x = false := by
  simp only [isStrOption, Bool.or_eq_true, beq_iff_eq] at h
  simp only [isIntOption, Bool.or_eq_false_iff, beq_eq_false_iff_ne, ne_eq]
  omega

theorem option_eta (o : option) : ({ ID := o.ID, Value := o.Value } : option) = o := rfl

/-- On a well-typed option, the typed reconstruction of the
`parseMessage` switch applied to the wire-value bytes gives back
exactly the original value. -/
theorem opt_value_roundtrip (o : option) (h : wellTyped o = true) :
    (if isIntOption o.ID then GoVal.vnat (decodeInt (toBytes o))
     else if isStrOption o.ID then GoVal.vstr (toBytes o)
     else GoVal.vbytes (toBytes o)) = o.Value := by
  rcases o with ⟨oID, oVal⟩
  rcases oVal with s | bb | n
  · simp only [wellTyped] at h
    have hio := str_not_int oID h
    simp [toBytes, hio, h]
  · simp only [wellTyped, Bool.and_eq_true, Bool.not_eq_true'] at h
    simp [toBytes, h.1, h.2]
  · simp only [wellTyped, Bool.and_eq_true, decide_eq_true_eq] at h
    simp [toBytes, h.1, Nat.mod_eq_of_lt h.2, decodeInt_encodeInt n h.2]

/-- A well-typed option never triggers the oversized-integer
`decodeInt` panic: integer-typed values encode into at most 4 bytes. -/
theorem opt_no_panic (o : option) (h : wellTyped o = true) :
    ¬ (isIntOption o.ID = true ∧ 4 < (toBytes o).length) := by
  rcases o with ⟨oID, oVal⟩
  rintro ⟨hint, hlen⟩
  rcases oVal with s | bb | n
  · simp only [wellTyped] at h
    have := str_not_int oID h
    simp_all
  · simp only [wellTyped, Bool.and_eq_true, Bool.not_eq_true'] at h
    simp_all
  · have : (toBytes ⟨oID, .vnat n⟩).length ≤ 4 := by
      simp only [toBytes]
      exact encodeInt_length_le _
    omega

/-- Core round-trip fact: on a sorted, gap-free list of well-typed,
encodable-length options with byte-sized identifiers, the encode loop
succeeds and the parse loop (run for exactly `l.length` options)
reconstructs the very same options and leaves the trailing bytes as
payload. -/
theorem encode_parse_opts (l : List option) : ∀ (prev : Nat) (payload : List Nat),
    sortedFrom prev l = true → gapsOk prev l = true →
    (∀ o ∈ l, wellTyped o = true) → (∀ o ∈ l, optLenOk o = true) →
    (∀ o ∈ l, o.ID ≤ 255) →
    ∃ ob, encodeOpts prev l = .ok ob ∧ ob.length = optsWireSize l ∧
      parseOpts l.length prev (ob ++ payload) = .done l payload := by
  induction l with
  | nil =>
    intro prev payload _ _ _ _ _
    exact ⟨[], rfl, by simp [optsWireSize], rfl⟩
  | cons o rest ih =>
    intro prev payload hs hg hw hl hid
    simp only [sortedFrom, gapsOk, Bool.and_eq_true, decide_eq_true_eq] at hs hg
    obtain ⟨hpo, hs'⟩ := hs
    obtain ⟨hdelta, hg'⟩ := hg
    obtain ⟨ob', henc', hlen', hparse'⟩ :=
      ih o.ID payload hs' hg' (fun x hx => hw x (List.mem_cons_of_mem _ hx))
        (fun x hx => hl x (List.mem_cons_of_mem _ hx))
        (fun x hx => hid x (List.mem_cons_of_mem _ hx))
    have hoid : o.ID ≤ 255 := hid o (List.mem_cons_self _ _)
    have hwo := hw o (List.mem_cons_self _ _)
    have hlo := hl o (List.mem_cons_self _ _)
    simp only [optLenOk, Bool.and_eq_true, decide_eq_true_eq] at hlo
    have hdm : (o.ID - prev) % 256 = o.ID - prev := by omega
    have hprevd : (prev + (o.ID - prev)) % 256 = o.ID := by omega
    by_cases h16 : 15 < (toBytes o).length
    · -- two-byte length header (length nibble 15 plus extension byte)
      have hnm : ((toBytes o).length - 15) % 256 = (toBytes o).length - 15 := by omega
      have hB := nibble_bits (o.ID - prev) (by omega) 15 (by omega)
      have henc : encodeOpts prev (o :: rest) =
          .ok ([((((o.ID - prev) % 256) <<< 4) % 256) ||| 15,
                ((toBytes o).length - 15) % 256] ++ toBytes o ++ ob') := by
        simp only [encodeOpts, henc']
        rw [if_pos h16, if_neg (show ¬ 15 < o.ID - prev by omega)]
      refine ⟨_, henc, by
        simp only [optsWireSize_cons, optWireSize, List.length_append,
          List.length_cons, List.length_nil]
        rw [if_pos h16]
        omega, ?_⟩
      have hlist : (([((((o.ID - prev) % 256) <<< 4) % 256) ||| 15,
            ((toBytes o).length - 15) % 256] ++ toBytes o ++ ob') ++ payload) =
          (((((o.ID - prev) % 256) <<< 4) % 256) ||| 15) ::
            (((toBytes o).length - 15) % 256) :: (toBytes o ++ (ob' ++ payload)) := by
        simp
      rw [hlist]
      have hread : readOptLen ((((((o.ID - prev) % 256) <<< 4) % 256) ||| 15) &&& 15)
          ((((toBytes o).length - 15) % 256) :: (toBytes o ++ (ob' ++ payload))) =
          some ((toBytes o).length, toBytes o ++ (ob' ++ payload)) := by
        rw [hdm, hB.2]
        simp only [readOptLen]
        rw [if_pos (by omega : (14:Nat) < 15)]
        rw [hnm, show 15 + ((toBytes o).length - 15) = (toBytes o).length by omega]
      simp only [List.length_cons, parseOpts, hread]
      rw [hdm, hB.1, hprevd]
      rw [if_neg (show ¬ (toBytes o ++ (ob' ++ payload)).length < (toBytes o).length by
            simp),
          if_neg (opt_no_panic o hwo)]
      rw [show (toBytes o ++ (ob' ++ payload)).take (toBytes o).length = toBytes o by simp,
          show (toBytes o ++ (ob' ++ payload)).drop (toBytes o).length = ob' ++ payload by simp]
      rw [hparse', opt_value_roundtrip o hwo, option_eta]
    · -- single-byte header carrying the length in its low nibble
      have hn15 : (toBytes o).length ≤ 14 := by omega
      have hnm : (toBytes o).length % 256 = (toBytes o).length := by omega
      have hB := nibble_bits (o.ID - prev) (by omega) (toBytes o).length (by omega)
      have henc : encodeOpts prev (o :: rest) =
          .ok ([((((o.ID - prev) % 256) <<< 4) % 256) |||
                ((toBytes o).length % 256)] ++ toBytes o ++ ob') := by
        simp only [encodeOpts, henc']
        rw [if_neg h16, if_neg (show ¬ 15 < o.ID - prev by omega)]
      refine ⟨_, henc, by
        simp only [optsWireSize_cons, optWireSize, List.length_append,
          List.length_cons, List.length_nil]
        rw [if_neg h16]
        omega, ?_⟩
      have hlist : (([((((o.ID - prev) % 256) <<< 4) % 256) |||
            ((toBytes o).length % 256)] ++ toBytes o ++ ob') ++ payload) =
          (((((o.ID - prev) % 256) <<< 4) % 256) ||| ((toBytes o).length % 256)) ::
            (toBytes o ++ (ob' ++ payload)) := by
        simp
      rw [hlist]
      have hread : readOptLen ((((((o.ID - prev) % 256) <<< 4) % 256) |||
            ((toBytes o).length % 256)) &&& 15) (toBytes o ++ (ob' ++ payload)) =
          some ((toBytes o).length, toBytes o ++ (ob' ++ payload)) := by
        rw [hdm, hnm, hB.2]
        simp only [readOptLen]
        rw [if_neg (show ¬ 14 < (toBytes o).length by omega)]
      simp only [List.length_cons, parseOpts, hread]
      rw [hdm, hnm, hB.1, hprevd]
      rw [if_neg (show ¬ (toBytes o ++ (ob' ++ payload)).length < (toBytes o).length by
            simp),
          if_neg (opt_no_panic o hwo)]
      rw [show (toBytes o ++ (ob' ++ payload)).take (toBytes o).length = toBytes o by simp,
          show (toBytes o ++ (ob' ++ payload)).drop (toBytes o).length = ob' ++ payload by simp]
      rw [hparse', opt_value_roundtrip o hwo, option_eta]

/-- Whenever the running-delta condition fails somewhere in the list,
the encode loop stops at the first offending option with the gap
error (the source checks `int(o.ID)-prev > 15` on every iteration and
returns immediately). -/
theorem encodeOpts_gap (l : List option) : ∀ prev : Nat, gapsOk prev l = false →
    encodeOpts prev l = .error .optionGapTooLarge := by
  induction l with
  | nil =>
    intro prev h
    simp [gapsOk] at h
  | cons o rest ih =>
    intro prev h
    by_cases hc : 15 < o.ID - prev
    · simp only [encodeOpts]
      rw [if_pos hc]
    · have hrest : gapsOk o.ID rest = false := by
        simp only [gapsOk, Bool.and_eq_false_iff, decide_eq_false_iff_not] at h
        rcases h with h | h
        · omega
        · exact h
      simp only [encodeOpts, ih o.ID hrest]
      rw [if_neg hc]

/-! ### Claims -/

/-- C5 (confirmed): `encodeInt` produces the minimal big-endian
encoding of every unsigned 32-bit value — 0 gives zero bytes, 1..255
one byte (255 gives FF), 256..65535 two bytes (256 gives 01 00),
65536..16777215 three bytes, 16777216 and above four bytes, and no
encoding starts with a zero byte. -/
theorem C5_encodeInt_minimal (v : Nat) (hv : v < 4294967296) :
    encodeInt 0 = [] ∧
    (1 ≤ v → v ≤ 255 → encodeInt v = [v]) ∧
    encodeInt 255 = [255] ∧
    (256 ≤ v → v ≤ 65535 → (encodeInt v).length = 2) ∧
    encodeInt 256 = [1, 0] ∧
    (65536 ≤ v → v ≤ 16777215 → (encodeInt v).length = 3) ∧
    (16777216 ≤ v → (encodeInt v).length = 4) ∧
    (v ≠ 0 → (encodeInt v).headD 0 ≠ 0) := by
  refine ⟨by decide, fun h1 h2 => ?_, by decide, fun h1 h2 => ?_, by decide,
    fun h1 h2 => ?_, fun h1 => ?_, fun h0 => ?_⟩
  · unfold encodeInt
    rw [if_neg (by omega), if_pos (by omega)]
    simp only [List.cons.injEq, and_true]
    omega
  · unfold encodeInt
    rw [if_neg (by omega), if_neg (by omega), if_pos (by omega)]
    rfl
  · unfold encodeInt
    rw [if_neg (by omega), if_neg (by omega), if_neg (by omega), if_pos (by omega)]
    rfl
  · unfold encodeInt
    rw [if_neg (by omega), if_neg (by omega), if_neg (by omega), if_neg (by omega)]
    rfl
  · unfold encodeInt
    split_ifs with h1 h2 h3 h4 <;> try simp only [List.headD_cons]
    all_goals omega

/-- C5 witness: the theorem applied at 300, whose hypothesis 300 < 2^32
holds; 300 is in the two-byte band. -/
theorem C5_encodeInt_minimal_witness :
    (300 : Nat) < 4294967296 ∧ (encodeInt 300).length = 2 :=
  ⟨by decide, (C5_encodeInt_minimal 300 (by decide)).2.2.2.1 (by decide) (by decide)⟩

/-- C10 (confirmed): `decodeInt` inverts `encodeInt` on every unsigned
32-bit value — left-padding the minimal big-endian bytes to 4 bytes
and reading them back big-endian recovers the value, including 0
whose encoding is empty. -/
theorem C10_decode_encode (v : Nat) (hv : v < 4294967296) :
    decodeInt (encodeInt v) = v :=
  decodeInt_encodeInt v hv

/-- C10 witness: the theorem applied at 0 and at 16777216. -/
theorem C10_decode_encode_witness :
    decodeInt (encodeInt 0) = 0 ∧ decodeInt (encodeInt 16777216) = 16777216 :=
  ⟨C10_decode_encode 0 (by decide), C10_decode_encode 16777216 (by decide)⟩

/-- C8 (confirmed): `parseMessage` fails with `ShortPacket` on every
input shorter than 6 bytes, and with `InvalidVersion` on every input
of at least 6 bytes whose top two bits of byte 0 differ from 1; in
both cases only an error is produced. -/
theorem C8_short_and_version (data : List Nat) (hb : ∀ x ∈ data, x < 256) :
    (data.length < 6 → parseMessage data = .error .shortPacket) ∧
    (6 ≤ data.length → data.headD 0 >>> 6 ≠ 1 →
      parseMessage data = .error .invalidVersion) := by
  constructor
  · intro h
    simp only [parseMessage]
    rw [if_pos h]
  · intro h6 hv
    rcases data with _ | ⟨d0, _ | ⟨d1, _ | ⟨d2, _ | ⟨d3, rest⟩⟩⟩⟩ <;>
      simp only [List.length_cons, List.length_nil] at h6 <;> try omega
    simp only [List.headD_cons] at hv
    simp only [parseMessage]
    rw [if_neg (by simp only [List.length_cons]; omega)]
    rw [if_pos hv]

/-- C8 witness: the theorem applied to a 5-byte input (short) and to a
6-byte version-0 input. -/
theorem C8_short_and_version_witness :
    parseMessage [0, 0, 0, 0, 0] = .error .shortPacket ∧
    parseMessage [0, 0, 0, 0, 0, 0] = .error .invalidVersion :=
  ⟨(C8_short_and_version [0, 0, 0, 0, 0] (by decide)).1 (by decide),
   (C8_short_and_version [0, 0, 0, 0, 0, 0] (by decide)).2 (by decide) (by decide)⟩

/-- C2 (code bug, evaluated at the failing input): an option value of
exactly 15 bytes does NOT get the two-byte extension form — the
encoder takes the extension branch only for lengths strictly greater
than 15, so a 15-byte value is emitted as the single header byte
0x1F (delta 1, length nibble 15) with no extension byte, 20 bytes in
all instead of 21; the encoder's own parser then misreads that nibble
as a length-extension marker and fails with Truncated.  A 16-byte
value does get the extension form, with extension byte 1. -/
theorem C2_length15_no_extension :
    encodeMessage ⟨0, 1, 0, [], [⟨1, GoVal.vbytes (List.replicate 15 7)⟩]⟩ =
      .ok ([65, 1, 0, 0, 31] ++ List.replicate 15 7) ∧
    ([65, 1, 0, 0, 31] ++ List.replicate 15 7).length = 20 ∧
    parseMessage ([65, 1, 0, 0, 31] ++ List.replicate 15 7) = .error .truncated ∧
    encodeMessage ⟨0, 1, 0, [], [⟨1, GoVal.vbytes (List.replicate 16 7)⟩]⟩ =
      .ok ([65, 1, 0, 0, 31, 1] ++ List.replicate 16 7) := by
  refine ⟨by decide, by decide, by decide, by decide⟩

/-- C3 (code bug, evaluated at the failing input): `parseMessage` can
panic.  On input 42 00 00 00 00 0F (version 1, option count 2, a
zero-length option, then a header byte with length nibble 15 as the
very last byte) the length-extension read `b[0]` happens with no
bytes remaining — a Go runtime index-out-of-range panic, not an
error return. -/
theorem C3_extension_read_panics :
    parseMessage [66, 0, 0, 0, 0, 15] = .panics := by
  decide

/-- C4 counterexample: fifteen options all with identifier 21 satisfy
the claim's premise (after sorting, the first delta is 21 > 15) yet
encoding fails with TooManyoptions, not OptionGapTooLarge — the
option-count check runs before the option loop. -/
theorem C4_gap_counterexample :
    gapsOk 0 (sortOptions (List.replicate 15 ⟨21, GoVal.vbytes []⟩)) = false ∧
    encodeMessage ⟨0, 0, 0, [], List.replicate 15 ⟨21, GoVal.vbytes []⟩⟩ =
      .error .tooManyoptions ∧
    encodeMessage ⟨0, 0, 0, [], List.replicate 15 ⟨21, GoVal.vbytes []⟩⟩ ≠
      .error .optionGapTooLarge := by
  refine ⟨by decide, by decide, by decide⟩

/-- C4 (amended): for every message with at most 14 options in which,
after sorting, some option's identifier exceeds the previous one
(initially 0) by more than 15, `encodeMessage` fails with the
OptionGapTooLarge error. -/
theorem C4_gap_error (m : Message) (hc : m.opts.length ≤ 14)
    (hg : gapsOk 0 (sortOptions m.opts) = false) :
    encodeMessage m = .error .optionGapTooLarge := by
  simp only [encodeMessage, encodeOpts_gap (sortOptions m.opts) 0 hg]
  rw [if_neg (by omega)]

/-- C4 witness: the claim's own examples — identifiers 1 and 21 in one
message, and a single option with identifier 21. -/
theorem C4_gap_error_witness :
    encodeMessage ⟨0, 0, 0, [], [⟨1, GoVal.vbytes []⟩, ⟨21, GoVal.vbytes []⟩]⟩ =
      .error .optionGapTooLarge ∧
    encodeMessage ⟨0, 0, 0, [], [⟨21, GoVal.vstr [97]⟩]⟩ =
      .error .optionGapTooLarge :=
  ⟨C4_gap_error _ (by decide) (by decide), C4_gap_error _ (by decide) (by decide)⟩

/-- C6 counterexample: an input whose option-count nibble is 15 but
whose version bits are 0 fails with InvalidVersion, not
TooManyoptions — the version check runs first, so the parse half of
the claim is false as universally stated. -/
theorem C6_count_counterexample :
    (15 : Nat) &&& 15 = 15 ∧
    parseMessage [15, 0, 0, 0, 0, 0] = .error .invalidVersion ∧
    parseMessage [15, 0, 0, 0, 0, 0] ≠ .error .tooManyoptions := by
  refine ⟨by decide, by decide, by decide⟩

/-- C6 (amended): `encodeMessage` fails with TooManyoptions on every
message with more than 14 options, and `parseMessage` fails with the
same error on every input of at least 6 bytes whose version bits
equal 1 and whose option-count nibble is 15. -/
theorem C6_too_many_options :
    (∀ m : Message, 14 < m.opts.length →
      encodeMessage m = .error .tooManyoptions) ∧
    (∀ data : List Nat, 6 ≤ data.length → data.headD 0 >>> 6 = 1 →
      data.headD 0 &&& 15 = 15 → parseMessage data = .error .tooManyoptions) := by
  constructor
  · intro m hm
    simp only [encodeMessage]
    rw [if_pos hm]
  · intro data h6 hver hcnt
    rcases data with _ | ⟨d0, _ | ⟨d1, _ | ⟨d2, _ | ⟨d3, rest⟩⟩⟩⟩ <;>
      simp only [List.length_cons, List.length_nil] at h6 <;> try omega
    simp only [List.headD_cons] at hver hcnt
    simp only [parseMessage]
    rw [if_neg (by simp only [List.length_cons]; omega)]
    rw [if_neg (by simp [hver])]
    rw [if_pos (by rw [hcnt]; omega)]

/-- C6 witness: the theorem applied to a 15-option message and to the
input 4F 00 00 00 00 00 (version 1, count nibble 15). -/
theorem C6_too_many_options_witness :
    encodeMessage ⟨0, 0, 0, [], List.replicate 15 ⟨1, GoVal.vnat 0⟩⟩ =
      .error .tooManyoptions ∧
    parseMessage [79, 0, 0, 0, 0, 0] = .error .tooManyoptions :=
  ⟨C6_too_many_options.1 _ (by decide),
   C6_too_many_options.2 _ (by decide) (by decide) (by decide)⟩

/-- C9 counterexample: the zero-option, empty-payload message encodes
to only 4 bytes, which `parseMessage` rejects as ShortPacket — the
round trip fails, so the claim is false for arbitrary payloads. -/
theorem C9_payload_counterexample :
    encodeMessage ⟨0, 0, 0, [], []⟩ = .ok [64, 0, 0, 0] ∧
    parseMessage [64, 0, 0, 0] = .error .shortPacket := by
  refine ⟨by decide, by decide⟩

/-- C9 (amended): for every message with zero options, a type value
among the four message types (0..3) and a payload of at least TWO
arbitrary bytes (embedded zero bytes included), encoding then
decoding succeeds and returns the payload exactly. -/
theorem C9_payload_roundtrip (m : Message) (ht : m.Type' ≤ 3)
    (h0 : m.opts = []) (hp : 2 ≤ m.Payload.length) :
    ∃ bytes msg, encodeMessage m = .ok bytes ∧ parseMessage bytes = .ok msg ∧
      msg.Payload = m.Payload := by
  obtain ⟨t, c, mid, payload, opts⟩ := m
  dsimp only at ht h0 hp
  subst h0
  rcases payload with _ | ⟨p0, _ | ⟨p1, ptail⟩⟩
  · simp at hp
  · simp at hp
  · have hhb := header_bits t (by omega) 0 (by omega)
    have ht256 : t % 256 = t := by omega
    have henc : encodeMessage ⟨t, c, mid, p0 :: p1 :: ptail, []⟩ =
        .ok (((64 ||| ((t % 256) <<< 4 % 256)) ||| (15 &&& 0)) :: c % 256 ::
          (mid % 65536) / 256 :: mid % 256 :: p0 :: p1 :: ptail) := rfl
    have hparse : parseMessage (((64 ||| ((t % 256) <<< 4 % 256)) ||| (15 &&& 0)) ::
          c % 256 :: (mid % 65536) / 256 :: mid % 256 :: p0 :: p1 :: ptail) =
        .ok ⟨(((64 ||| ((t % 256) <<< 4 % 256)) ||| (15 &&& 0)) >>> 4) &&& 3, c % 256,
          ((mid % 65536) / 256) * 256 + mid % 256, p0 :: p1 :: ptail, []⟩ := by
      rw [ht256]
      simp only [parseMessage]
      rw [if_neg (by simp only [List.length_cons]; omega)]
      rw [if_neg (by simpa using hhb.1)]
      rw [if_neg (by rw [hhb.2.2]; omega)]
      rw [hhb.2.2]
      rfl
    exact ⟨_, _, henc, hparse, rfl⟩

/-- C9 witness: the amended theorem applied to a concrete message with
a 3-byte payload containing embedded zeros. -/
theorem C9_payload_roundtrip_witness :
    ∃ bytes msg,
      encodeMessage ⟨2, 5, 7, [0, 0, 9], []⟩ = .ok bytes ∧
      parseMessage bytes = .ok msg ∧ msg.Payload = [0, 0, 9] :=
  C9_payload_roundtrip ⟨2, 5, 7, [0, 0, 9], []⟩ (by decide) rfl (by decide)

/-- C1 counterexample: a message with one option holding a 15-byte
value satisfies the claim's premise (1 option ≤ 14, sorted delta
1 ≤ 15) yet the round trip fails — the encoder emits the broken
single-byte length form for 15-byte values and its own parser then
fails with Truncated, so parse does not succeed as the claim states. -/
theorem C1_roundtrip_counterexample :
    gapsOk 0 (sortOptions [⟨1, GoVal.vbytes (List.replicate 15 0)⟩]) = true ∧
    encodeMessage ⟨0, 0, 0, [], [⟨1, GoVal.vbytes (List.replicate 15 0)⟩]⟩ =
      .ok ([65, 0, 0, 0, 31] ++ List.replicate 15 0) ∧
    parseMessage ([65, 0, 0, 0, 31] ++ List.replicate 15 0) = .error .truncated := by
  refine ⟨by decide, by decide, by decide⟩

/-- C1 (amended): for every message whose type value is among the four
message types (0..3), whose code is a byte and message ID a 16-bit
value (as the Go field types guarantee), with at most 14 options,
sorted identifier deltas each at most 15 (from previous identifier
0), every option value well-typed for its identifier, every option
wire-value length not exactly 15 and at most 270, and at least two
bytes following the 4-byte header (encoded option bytes plus payload
bytes, `optsWireSize` counting header, extension and value bytes per
option exactly as the encoder emits them), encodeMessage
succeeds, parseMessage of the result succeeds and yields the same
type, code, message ID, payload, and the same multiset of
(identifier, value) option pairs (order may differ). -/
theorem C1_roundtrip (m : Message) (htype : m.Type' ≤ 3) (hcode : m.Code < 256)
    (hmid : m.MessageID < 65536) (hcount : m.opts.length ≤ 14)
    (hgaps : gapsOk 0 (sortOptions m.opts) = true)
    (hwt : ∀ o ∈ m.opts, wellTyped o = true)
    (hol : ∀ o ∈ m.opts, optLenOk o = true)
    (hsize : 2 ≤ optsWireSize m.opts + m.Payload.length) :
    ∃ bytes msg, encodeMessage m = .ok bytes ∧ parseMessage bytes = .ok msg ∧
      msg.Type' = m.Type' ∧ msg.Code = m.Code ∧ msg.MessageID = m.MessageID ∧
      msg.Payload = m.Payload ∧
      (msg.opts : Multiset option) = (m.opts : Multiset option) := by
  have hperm := sortOptions_perm m.opts
  have hsorted := sortOptions_sortedFrom m.opts
  have hslen := sortOptions_length m.opts
  have hws : optsWireSize (sortOptions m.opts) = optsWireSize m.opts :=
    (hperm.map optWireSize).sum_eq
  have hwt' : ∀ o ∈ sortOptions m.opts, wellTyped o = true :=
    fun o ho => hwt o (hperm.subset ho)
  have hol' : ∀ o ∈ sortOptions m.opts, optLenOk o = true :=
    fun o ho => hol o (hperm.subset ho)
  have hid' : ∀ o ∈ sortOptions m.opts, o.ID ≤ 255 := by
    intro o ho
    have := ids_le_of_sorted_gaps (sortOptions m.opts) 0 hsorted hgaps o ho
    omega
  obtain ⟨ob, henc, hoblen, hparse⟩ :=
    encode_parse_opts (sortOptions m.opts) 0 m.Payload hsorted hgaps hwt' hol' hid'
  have ht256 : m.Type' % 256 = m.Type' := by omega
  have hhb := header_bits m.Type' (by omega) m.opts.length (by omega)
  have hencmsg : encodeMessage m =
      .ok (((64 ||| ((m.Type' % 256) <<< 4 % 256)) ||| (15 &&& m.opts.length)) ::
        m.Code % 256 :: (m.MessageID % 65536) / 256 :: m.MessageID % 256 ::
        (ob ++ m.Payload)) := by
    simp only [encodeMessage, henc]
    rw [if_neg (by omega)]
    simp
  have hparsemsg : parseMessage
      (((64 ||| ((m.Type' % 256) <<< 4 % 256)) ||| (15 &&& m.opts.length)) ::
        m.Code % 256 :: (m.MessageID % 65536) / 256 :: m.MessageID % 256 ::
        (ob ++ m.Payload)) =
      .ok ⟨m.Type', m.Code % 256,
        ((m.MessageID % 65536) / 256) * 256 + m.MessageID % 256,
        m.Payload, sortOptions m.opts⟩ := by
    rw [ht256]
    simp only [parseMessage]
    rw [if_neg (by
      simp only [List.length_cons, List.length_append]
      omega)]
    rw [if_neg (by simpa using hhb.1)]
    rw [if_neg (by rw [hhb.2.2]; omega)]
    rw [hhb.2.2, ← hslen, hparse, hslen, hhb.2.1]
  refine ⟨_, _, hencmsg, hparsemsg, rfl, Nat.mod_eq_of_lt hcode,
    by show ((m.MessageID % 65536) / 256) * 256 + m.MessageID % 256 = m.MessageID; omega,
    rfl, ?_⟩
  exact Multiset.coe_eq_coe.mpr hperm

/-- C1 witness: the amended theorem applied to a concrete two-option
message (a MaxAge integer option and a UriPath string option, given
out of order) with a 2-byte payload, and to a one-option message with
an empty payload whose single 1-byte value leaves exactly two bytes
after the header. -/
theorem C1_roundtrip_witness :
    gapsOk 0 (sortOptions [⟨9, GoVal.vstr [120]⟩, ⟨2, GoVal.vnat 300⟩]) = true ∧
    (∃ bytes msg,
      encodeMessage ⟨1, 69, 33, [1, 2], [⟨9, GoVal.vstr [120]⟩, ⟨2, GoVal.vnat 300⟩]⟩ =
        .ok bytes ∧
      parseMessage bytes = .ok msg ∧
      msg.Type' = 1 ∧ msg.Code = 69 ∧ msg.MessageID = 33 ∧ msg.Payload = [1, 2] ∧
      (msg.opts : Multiset option) =
        ([⟨9, GoVal.vstr [120]⟩, ⟨2, GoVal.vnat 300⟩] : List option)) ∧
    (∃ bytes msg,
      encodeMessage ⟨0, 0, 0, [], [⟨1, GoVal.vnat 5⟩]⟩ = .ok bytes ∧
      parseMessage bytes = .ok msg ∧
      msg.Type' = 0 ∧ msg.Code = 0 ∧ msg.MessageID = 0 ∧ msg.Payload = [] ∧
      (msg.opts : Multiset option) = ([⟨1, GoVal.vnat 5⟩] : List option)) :=
  ⟨by decide,
   C1_roundtrip ⟨1, 69, 33, [1, 2], [⟨9, GoVal.vstr [120]⟩, ⟨2, GoVal.vnat 300⟩]⟩
     (by decide) (by decide) (by decide) (by decide) (by decide)
     (by decide) (by decide) (by decide),
   C1_roundtrip ⟨0, 0, 0, [], [⟨1, GoVal.vnat 5⟩]⟩
     (by decide) (by decide) (by decide) (by decide) (by decide)
     (by decide) (by decide) (by decide)⟩

end GoCoap
